import Mathlib

/-!
Verification of the authorization external-state contract
(`src/mongo/db/auth/authz_manager_external_state.h`).

The header declares a purely virtual interface; the behavioural contracts live
in its doc comments and in the accompanying design document.  The definitions
below embed the data model and the operations shallowly: document stores become
association lists, the description-resolution expansion becomes a terminating
breadth-first traversal with an explicit visited list, and fallible operations
return `Except ErrorCode`.
-/

namespace AuthzExternalState

/-- Identity of a role: role name paired with the owning database name. -/
structure RoleIdentity where
  role : String
  db : String
deriving DecidableEq

/-- Identity of a user: principal name paired with the owning database name. -/
structure UserName where
  user : String
  db : String
deriving DecidableEq

/-- A privilege: a resource together with the set of actions permitted on it. -/
structure Privilege where
  resource : String
  actions : List String
deriving DecidableEq

/-- Durable record for one role: its directly granted sub-roles and its
directly granted privileges. -/
structure RoleDocument where
  roles : List RoleIdentity
  privileges : List Privilege
deriving DecidableEq

/-- Durable record for one user: credential presence, directly granted role
references and (legacy format) directly granted inline privileges. -/
structure PrivilegeDocument where
  hasCredentials : Bool
  roles : List RoleIdentity
  privileges : List Privilege
deriving DecidableEq

/-- Typed error outcomes used by the contract. -/
inductive ErrorCode where
  | UserNotFound
  | RoleNotFound
  | NoMatchingDocument
  | DuplicateKey
  | NotFound
deriving DecidableEq

/-- Association-list store of role documents keyed by role identity. -/
abbrev RoleStore := List (RoleIdentity × RoleDocument)

/-- Association-list store of user privilege documents keyed by user name. -/
abbrev UserStore := List (UserName × PrivilegeDocument)

/-- Look up the first role document bound to identity `r`. -/
def lookupRole : RoleStore → RoleIdentity → Option RoleDocument
  | [], _ => none
  | (k, v) :: rest, r => if k = r then some v else lookupRole rest r

/-- Look up the first privilege document bound to user `u`. -/
def lookupUser : UserStore → UserName → Option PrivilegeDocument
  | [], _ => none
  | (k, v) :: rest, u => if k = u then some v else lookupUser rest u

/-- Number of store keys not yet in the visited list; the primary component of
the termination measure of the expansion. -/
def unvisitedCount (store : RoleStore) (visited : List RoleIdentity) : Nat :=
  ((store.map Prod.fst).filter (fun k => decide (k ∉ visited))).length

theorem lookupRole_some_mem {store : RoleStore} {r : RoleIdentity}
    {doc : RoleDocument} (h : lookupRole store r = some doc) :
    r ∈ store.map Prod.fst := by
  induction store with
  | nil => simp [lookupRole] at h
  | cons kv rest ih =>
    rw [lookupRole] at h
    by_cases hk : kv.1 = r
    · simp [hk]
    · simp only [hk, if_false] at h
      simp [ih h]

theorem lookupRole_none_not_mem {store : RoleStore} {r : RoleIdentity}
    (h : lookupRole store r = none) : r ∉ store.map Prod.fst := by
  induction store with
  | nil => simp
  | cons kv rest ih =>
    rw [lookupRole] at h
    by_cases hk : kv.1 = r
    · simp [hk] at h
    · simp only [hk, if_false] at h
      simp only [List.map_cons, List.mem_cons]
      rintro (h1 | h2)
      · exact hk h1.symm
      · exact ih h h2

theorem unvisitedCount_cons_lt {store : RoleStore} {r : RoleIdentity}
    {visited : List RoleIdentity} (hk : r ∈ store.map Prod.fst)
    (hv : r ∉ visited) :
    unvisitedCount store (r :: visited) < unvisitedCount store visited := by
  unfold unvisitedCount
  have hsub : List.Sublist
      ((store.map Prod.fst).filter (fun k => decide (k ∉ r :: visited)))
      ((store.map Prod.fst).filter (fun k => decide (k ∉ visited))) := by
    apply List.monotone_filter_right
    intro a ha
    simp only [decide_eq_true_eq] at ha ⊢
    intro hmem
    exact ha (List.mem_cons_of_mem _ hmem)
  rcases Nat.lt_or_eq_of_le hsub.length_le with hlt | heq
  · exact hlt
  · exfalso
    have heqlist := hsub.eq_of_length heq
    have hr1 : r ∈ (store.map Prod.fst).filter (fun k => decide (k ∉ visited)) := by
      simp only [List.mem_filter, decide_eq_true_eq]
      exact ⟨hk, hv⟩
    rw [← heqlist] at hr1
    simp only [List.mem_filter, decide_eq_true_eq, List.mem_cons] at hr1
    exact hr1.2 (Or.inl trivial)

theorem unvisitedCount_cons_eq {store : RoleStore} {r : RoleIdentity}
    (visited : List RoleIdentity) (hk : r ∉ store.map Prod.fst) :
    unvisitedCount store (r :: visited) = unvisitedCount store visited := by
  unfold unvisitedCount
  congr 1
  apply List.filter_congr
  intro a ha
  have har : a ≠ r := fun h => hk (h ▸ ha)
  simp only [decide_eq_decide, List.mem_cons]
  constructor
  · intro h hmem
    exact h (Or.inr hmem)
  · rintro h (h1 | h2)
    · exact har h1
    · exact h h2

/-- Breadth-first role-membership expansion, following the resolver design:
pop a role from the frontier; a role already visited is skipped; otherwise it
is marked visited and its document fetched — on success its direct privileges
are accumulated and its direct sub-roles enqueued, on failure (dangling
reference) the role is recorded in the warned list and expansion continues.
Returns the final visited list, the accumulated privilege list, and the list
of roles whose fetch failed (in warning order). -/
def expand (store : RoleStore) :
    List RoleIdentity → List RoleIdentity → List Privilege → List RoleIdentity →
    List RoleIdentity × List Privilege × List RoleIdentity
  | [], visited, privs, warned => (visited, privs, warned)
  | r :: frontier, visited, privs, warned =>
    if hv : r ∈ visited then
      expand store frontier visited privs warned
    else
      match hl : lookupRole store r with
      | some doc =>
          expand store (frontier ++ doc.roles) (r :: visited)
            (privs ++ doc.privileges) warned
      | none =>
          expand store frontier (r :: visited) privs (warned ++ [r])
termination_by frontier visited privs warned =>
  (unvisitedCount store visited, frontier.length)
decreasing_by
  · apply Prod.Lex.right
    exact Nat.lt_succ_self _
  · apply Prod.Lex.left
    exact unvisitedCount_cons_lt (lookupRole_some_mem hl) hv
  · rw [unvisitedCount_cons_eq visited (lookupRole_none_not_mem hl)]
    apply Prod.Lex.right
    exact Nat.lt_succ_self _

/-- Warning message recorded for a referenced role whose document could not be
fetched; the role's granted privileges are omitted from the result. -/
def roleWarning (r : RoleIdentity) : String :=
  "role " ++ r.role ++ "@" ++ r.db ++
    " not found; granted privileges from it are omitted"

/-- Union of two action lists, keeping the left list's order and appending the
actions only present in the right list. -/
def unionActions (a b : List String) : List String :=
  a ++ b.filter (fun x => decide (x ∉ a))

/-- Merge privilege `p` into an accumulator that holds at most one privilege
per resource: if the resource is already present its action set becomes the
union, otherwise `p` is appended. -/
def insertPrivilege (p : Privilege) : List Privilege → List Privilege
  | [] => [p]
  | q :: rest =>
    if q.resource = p.resource then
      ⟨q.resource, unionActions q.actions p.actions⟩ :: rest
    else q :: insertPrivilege p rest

/-- Union-deduplicate a privilege list by resource identity, keeping for each
resource the union of the actions granted by any occurrence. -/
def dedupPrivileges (ps : List Privilege) : List Privilege :=
  ps.foldl (fun acc p => insertPrivilege p acc) []

/-- Semantics of a privilege list: action `act` is granted on resource `res`. -/
def grantsAction (ps : List Privilege) (res act : String) : Prop :=
  ∃ p ∈ ps, p.resource = res ∧ act ∈ p.actions

instance (ps : List Privilege) (res act : String) :
    Decidable (grantsAction ps res act) := by
  unfold grantsAction
  infer_instance

/-- Fully expanded view of a principal: credential presence, all roles held
(direct and transitive), the flattened privilege set, and warning strings. -/
structure Description where
  hasCredentials : Bool
  roles : List RoleIdentity
  privileges : List Privilege
  warnings : List String
deriving DecidableEq

/-- Resolve the named user to a full description: fetch the user's own
document (absence is fatal: `UserNotFound`), seed the result with the directly
granted roles and privileges, expand role membership breadth-first, then
union-deduplicate the accumulated privileges by resource.  Mid-expansion fetch
failures become warnings, never errors. -/
def getUserDescription (ustore : UserStore) (rstore : RoleStore)
    (u : UserName) : Except ErrorCode Description :=
  match lookupUser ustore u with
  | none => .error .UserNotFound
  | some udoc =>
    let res := expand rstore udoc.roles [] udoc.privileges []
    .ok ⟨udoc.hasCredentials, res.1, dedupPrivileges res.2.1,
      res.2.2.map roleWarning⟩

/-- Resolve the named role to a full description.  Absence of the role itself
is fatal (`RoleNotFound`); the role starts out visited so a membership cycle
never re-expands it, and it is not reported among its own member roles. -/
def getRoleDescription (rstore : RoleStore) (r : RoleIdentity) :
    Except ErrorCode Description :=
  match lookupRole rstore r with
  | none => .error .RoleNotFound
  | some rdoc =>
    let res := expand rstore rdoc.roles [r] rdoc.privileges []
    .ok ⟨false, res.1.filter (fun x => decide (x ≠ r)),
      dedupPrivileges res.2.1, res.2.2.map roleWarning⟩

/-! ## Document Store Adapter -/

/-- A stored document: a flat list of field-name/value pairs. -/
abbrev Document := List (String × String)

/-- A named collection's contents, in storage order. -/
abbrev Collection := List Document

/-- Storage state: the collections of the deployment, keyed by namespace. -/
structure StorageState where
  collections : List (String × Collection)
deriving DecidableEq

/-- Look up a collection's contents by namespace name. -/
def lookupCollection : List (String × Collection) → String → Option Collection
  | [], _ => none
  | (n, c) :: rest, ns => if n = ns then some c else lookupCollection rest ns

/-- Contents of the named collection; a namespace that was never written is
the empty collection. -/
def getCollection (st : StorageState) (ns : String) : Collection :=
  (lookupCollection st.collections ns).getD []

/-- A document matches a query when every field/value pair of the query
appears in the document. -/
def matchesQuery (q d : Document) : Bool :=
  q.all (fun kv => decide (kv ∈ d))

/-- Contract of `findOne`: the first document matching `query` in
`collectionName`, or `NoMatchingDocument` when no document matches. -/
def findOne (st : StorageState) (ns : String) (q : Document) :
    Except ErrorCode Document :=
  match (getCollection st ns).find? (matchesQuery q) with
  | some d => .ok d
  | none => .error .NoMatchingDocument

/-- Apply an update to a document: fields of the update override the
document's fields, other fields are kept. -/
def applyUpdate (up d : Document) : Document :=
  up ++ d.filter (fun kv => decide (∀ pv ∈ up, pv.1 ≠ kv.1))

/-- Replace the first document matching `q` by its update, or `none` when no
document matches. -/
def updateFirstMatch (q up : Document) : Collection → Option Collection
  | [] => none
  | d :: rest =>
    if matchesQuery q d then some (applyUpdate up d :: rest)
    else (updateFirstMatch q up rest).map (fun c => d :: c)

/-- Overwrite the contents of namespace `ns` with `c`. -/
def setCollection : List (String × Collection) → String → Collection →
    List (String × Collection)
  | [], ns, c => [(ns, c)]
  | (n, cc) :: rest, ns, c =>
    if n = ns then (ns, c) :: rest else (n, cc) :: setCollection rest ns c

/-- Contract of `updateOne`: update the first document matching `query`
according to `updatePattern`.  With upsert and no match, insert one document
using the query as a template; without upsert and no match, fail with
`NoMatchingDocument`. -/
def updateOne (st : StorageState) (ns : String) (q updatePattern : Document)
    (upsert : Bool) : Except ErrorCode StorageState :=
  match updateFirstMatch q updatePattern (getCollection st ns) with
  | some c => .ok ⟨setCollection st.collections ns c⟩
  | none =>
    if upsert then
      .ok ⟨setCollection st.collections ns
        (getCollection st ns ++ [applyUpdate updatePattern q])⟩
    else .error .NoMatchingDocument

/-- Contract of `_findUser`: query the users namespace; a match is returned,
and no match is reported as `UserNotFound` (not `NoMatchingDocument`). -/
def findUser (st : StorageState) (usersNamespace : String) (q : Document) :
    Except ErrorCode Document :=
  match (getCollection st usersNamespace).find? (matchesQuery q) with
  | some d => .ok d
  | none => .error .UserNotFound

/-- Modelled from the spec: the body of `getPrivilegeDocument` is not part of
the repository excerpt (only its declaration is), so the versioning bridge is
taken from the design document.  For schema version 1 the lookup targets the
per-database legacy users collection keyed by user name; for later versions it
targets the unified admin users collection keyed by user name and database.
Both paths go through `_findUser`, so an absent user surfaces as
`UserNotFound`. -/
def getPrivilegeDocument (st : StorageState) (u : UserName)
    (authzVersion : Nat) : Except ErrorCode Document :=
  if authzVersion = 1 then
    findUser st (u.db ++ ".system.users") [("user", u.user)]
  else
    findUser st "admin.system.users" [("user", u.user), ("db", u.db)]

/-! ## Update Serialization Lock -/

/-- State of the authorization update lock: the holder, if any, as the caller
identity paired with the human-readable reason it gave. -/
structure LockState where
  holder : Option (String × String)
deriving DecidableEq

/-- Contract of `tryAcquireAuthzUpdateLock`: non-blocking; returns `false` and
leaves the state unchanged when the lock is already held, returns `true` and
records the new holder (with its reason string) when it is free. -/
def tryAcquireAuthzUpdateLock (caller why : String) (s : LockState) :
    Bool × LockState :=
  match s.holder with
  | some _ => (false, s)
  | none => (true, ⟨some (caller, why)⟩)

/-- Contract of `releaseAuthzUpdateLock`: releases the lock. -/
def releaseAuthzUpdateLock (_s : LockState) : LockState := ⟨none⟩

/-- Number of holders of the lock, for the at-most-one-holder invariant. -/
def holderCount (s : LockState) : Nat :=
  match s.holder with
  | some _ => 1
  | none => 0

/-! ## Resolver-level system state and operations -/

/-- Authorization data visible to the resolver: the user store and the role
store. -/
structure AuthzState where
  users : UserStore
  roles : RoleStore
deriving DecidableEq

/-- Operations against the authorization data: administrative mutations and
pure reads. -/
inductive AuthzOp where
  | insertUserDoc (u : UserName) (d : PrivilegeDocument)
  | removeUserDocs (u : UserName)
  | insertRoleDoc (r : RoleIdentity) (d : RoleDocument)
  | removeRoleDocs (r : RoleIdentity)
  | readUserDescription (u : UserName)
  | readRoleDescription (r : RoleIdentity)

/-- An operation is a mutation exactly when it writes one of the
authorization collections. -/
def isMutation : AuthzOp → Bool
  | .insertUserDoc _ _ => true
  | .removeUserDocs _ => true
  | .insertRoleDoc _ _ => true
  | .removeRoleDocs _ => true
  | .readUserDescription _ => false
  | .readRoleDescription _ => false

/-- State transition of one operation; reads leave the state unchanged. -/
def applyOp (s : AuthzState) : AuthzOp → AuthzState
  | .insertUserDoc u d => ⟨(u, d) :: s.users, s.roles⟩
  | .removeUserDocs u => ⟨s.users.filter (fun kv => decide (kv.1 ≠ u)), s.roles⟩
  | .insertRoleDoc r d => ⟨s.users, (r, d) :: s.roles⟩
  | .removeRoleDocs r => ⟨s.users, s.roles.filter (fun kv => decide (kv.1 ≠ r))⟩
  | .readUserDescription _ => s
  | .readRoleDescription _ => s

/-- Run a sequence of operations from the left. -/
def applyOps (s : AuthzState) (ops : List AuthzOp) : AuthzState :=
  ops.foldl applyOp s

/-- Combined system state: authorization data plus the update lock.  Reads go
through the data component only. -/
structure SystemState where
  data : AuthzState
  lock : LockState

/-- Read path of `getUserDescription` on the combined state: it consults the
data component only and never the lock. -/
def sysGetUserDescription (s : SystemState) (u : UserName) :
    Except ErrorCode Description :=
  getUserDescription s.data.users s.data.roles u

/-! ## Expansion step lemmas -/


theorem expand_nil (store : RoleStore) (visited : List RoleIdentity)
    (privs : List Privilege) (warned : List RoleIdentity) :
    expand store [] visited privs warned = (visited, privs, warned) := by
  rw [expand]

theorem expand_cons_visited {r : RoleIdentity} {visited : List RoleIdentity}
    (store : RoleStore) (frontier : List RoleIdentity) (privs : List Privilege)
    (warned : List RoleIdentity) (hv : r ∈ visited) :
    expand store (r :: frontier) visited privs warned =
      expand store frontier visited privs warned := by
  rw [expand]
  simp [hv]

theorem expand_cons_hit {r : RoleIdentity} {visited : List RoleIdentity}
    {doc : RoleDocument} (store : RoleStore) (frontier : List RoleIdentity)
    (privs : List Privilege) (warned : List RoleIdentity)
    (hv : r ∉ visited) (hl : lookupRole store r = some doc) :
    expand store (r :: frontier) visited privs warned =
      expand store (frontier ++ doc.roles) (r :: visited)
        (privs ++ doc.privileges) warned := by
  rw [expand, dif_neg hv]
  split
  · rename_i doc2 heq
    rw [hl] at heq
    cases heq
    rfl
  · rename_i heq
    rw [hl] at heq
    cases heq

theorem expand_cons_miss {r : RoleIdentity} {visited : List RoleIdentity}
    (store : RoleStore) (frontier : List RoleIdentity) (privs : List Privilege)
    (warned : List RoleIdentity)
    (hv : r ∉ visited) (hl : lookupRole store r = none) :
    expand store (r :: frontier) visited privs warned =
      expand store frontier (r :: visited) privs (warned ++ [r]) := by
  rw [expand, dif_neg hv]
  split
  · rename_i doc2 heq
    rw [hl] at heq
    cases heq
  · rfl

/-! ## Privilege-union semantics -/


theorem grantsAction_nil {res act : String} : ¬ grantsAction [] res act := by
  simp [grantsAction]

theorem grantsAction_cons {p : Privilege} {l : List Privilege}
    {res act : String} :
    grantsAction (p :: l) res act ↔
      (p.resource = res ∧ act ∈ p.actions) ∨ grantsAction l res act := by
  simp [grantsAction]

theorem grantsAction_append {a b : List Privilege} {res act : String} :
    grantsAction (a ++ b) res act ↔
      grantsAction a res act ∨ grantsAction b res act := by
  simp [grantsAction, List.mem_append, or_and_right, exists_or]

theorem mem_unionActions {x : String} {a b : List String} :
    x ∈ unionActions a b ↔ x ∈ a ∨ x ∈ b := by
  unfold unionActions
  simp only [List.mem_append, List.mem_filter, decide_eq_true_eq]
  by_cases hx : x ∈ a
  · simp [hx]
  · simp [hx]

theorem grantsAction_insertPrivilege {p : Privilege} {acc : List Privilege}
    {res act : String} :
    grantsAction (insertPrivilege p acc) res act ↔
      (p.resource = res ∧ act ∈ p.actions) ∨ grantsAction acc res act := by
  induction acc with
  | nil => simp [insertPrivilege, grantsAction_cons, grantsAction_nil]
  | cons q rest ih =>
    rw [insertPrivilege]
    by_cases hq : q.resource = p.resource
    · rw [if_pos hq]
      rw [grantsAction_cons, grantsAction_cons]
      simp only [mem_unionActions]
      rw [← hq]
      tauto
    · rw [if_neg hq]
      rw [grantsAction_cons, grantsAction_cons, ih]
      tauto

theorem grantsAction_foldl_insert (ps : List Privilege) :
    ∀ (acc : List Privilege) (res act : String),
    grantsAction (ps.foldl (fun acc p => insertPrivilege p acc) acc) res act ↔
      grantsAction ps res act ∨ grantsAction acc res act := by
  induction ps with
  | nil =>
    intro acc res act
    simp [grantsAction_nil]
  | cons p rest ih =>
    intro acc res act
    rw [List.foldl_cons, ih, grantsAction_insertPrivilege, grantsAction_cons]
    tauto

theorem grantsAction_dedupPrivileges {ps : List Privilege} {res act : String} :
    grantsAction (dedupPrivileges ps) res act ↔ grantsAction ps res act := by
  unfold dedupPrivileges
  rw [grantsAction_foldl_insert]
  simp [grantsAction_nil]

/-! ## Expansion invariants -/


theorem expand_extends (store : RoleStore) (frontier visited : List RoleIdentity)
    (privs : List Privilege) (warned : List RoleIdentity) :
    (∀ x ∈ visited, x ∈ (expand store frontier visited privs warned).1) ∧
    (∀ q ∈ privs, q ∈ (expand store frontier visited privs warned).2.1) ∧
    (∀ x ∈ warned, x ∈ (expand store frontier visited privs warned).2.2) := by
  induction frontier, visited, privs, warned using expand.induct store with
  | case1 visited privs warned =>
    rw [expand_nil]
    exact ⟨fun x hx => hx, fun q hq => hq, fun x hx => hx⟩
  | case2 r frontier visited privs warned hv ih =>
    rw [expand_cons_visited store frontier privs warned hv]
    exact ih
  | case3 r frontier visited privs warned hv doc hl ih =>
    rw [expand_cons_hit store frontier privs warned hv hl]
    refine ⟨fun x hx => ih.1 x (List.mem_cons_of_mem _ hx),
      fun q hq => ih.2.1 q (List.mem_append_left _ hq), ih.2.2⟩
  | case4 r frontier visited privs warned hv hl ih =>
    rw [expand_cons_miss store frontier privs warned hv hl]
    exact ⟨fun x hx => ih.1 x (List.mem_cons_of_mem _ hx), ih.2.1,
      fun x hx => ih.2.2 x (List.mem_append_left _ hx)⟩

theorem expand_visited_complete (store : RoleStore)
    (frontier visited : List RoleIdentity) (privs : List Privilege)
    (warned : List RoleIdentity) :
    ∀ r ∈ (expand store frontier visited privs warned).1,
      r ∈ visited ∨
      (∀ doc, lookupRole store r = some doc →
        ∀ q ∈ doc.privileges, q ∈ (expand store frontier visited privs warned).2.1) := by
  induction frontier, visited, privs, warned using expand.induct store with
  | case1 visited privs warned =>
    rw [expand_nil]
    intro r hr
    exact Or.inl hr
  | case2 r0 frontier visited privs warned hv ih =>
    rw [expand_cons_visited store frontier privs warned hv]
    exact ih
  | case3 r0 frontier visited privs warned hv doc hl ih =>
    rw [expand_cons_hit store frontier privs warned hv hl]
    intro r hr
    rcases ih r hr with hvis | hprop
    · rcases List.mem_cons.mp hvis with heq | hmem
      · subst heq
        right
        intro doc2 hl2 q hq
        rw [hl] at hl2
        cases hl2
        exact (expand_extends store (frontier ++ doc.roles) (r :: visited)
          (privs ++ doc.privileges) warned).2.1 q (List.mem_append_right _ hq)
      · exact Or.inl hmem
    · exact Or.inr hprop
  | case4 r0 frontier visited privs warned hv hl ih =>
    rw [expand_cons_miss store frontier privs warned hv hl]
    intro r hr
    rcases ih r hr with hvis | hprop
    · rcases List.mem_cons.mp hvis with heq | hmem
      · subst heq
        right
        intro doc2 hl2
        rw [hl] at hl2
        cases hl2
      · exact Or.inl hmem
    · exact Or.inr hprop

theorem expand_warned_inv (store : RoleStore)
    (frontier visited : List RoleIdentity) (privs : List Privilege)
    (warned : List RoleIdentity) (hnv : visited.Nodup) (hnw : warned.Nodup)
    (hwv : ∀ x ∈ warned, x ∈ visited) :
    (expand store frontier visited privs warned).1.Nodup ∧
    (expand store frontier visited privs warned).2.2.Nodup ∧
    (∀ x ∈ (expand store frontier visited privs warned).2.2,
      x ∈ (expand store frontier visited privs warned).1) := by
  induction frontier, visited, privs, warned using expand.induct store with
  | case1 visited privs warned =>
    rw [expand_nil]
    exact ⟨hnv, hnw, fun x hx => hwv x hx⟩
  | case2 r frontier visited privs warned hv ih =>
    rw [expand_cons_visited store frontier privs warned hv]
    exact ih hnv hnw hwv
  | case3 r frontier visited privs warned hv doc hl ih =>
    rw [expand_cons_hit store frontier privs warned hv hl]
    exact ih (List.nodup_cons.mpr ⟨hv, hnv⟩) hnw
      (fun x hx => List.mem_cons_of_mem _ (hwv x hx))
  | case4 r frontier visited privs warned hv hl ih =>
    rw [expand_cons_miss store frontier privs warned hv hl]
    apply ih (List.nodup_cons.mpr ⟨hv, hnv⟩)
    · rw [List.nodup_append]
      refine ⟨hnw, List.nodup_singleton r, ?_⟩
      intro x hx
      simp only [List.mem_singleton]
      intro heq
      subst heq
      exact hv (hwv x hx)
    · intro x hx
      rcases List.mem_append.mp hx with h1 | h2
      · exact List.mem_cons_of_mem _ (hwv x h1)
      · simp only [List.mem_singleton] at h2
        subst h2
        exact List.mem_cons_self _ _

/-! ## Two-role cycle computation -/


theorem two_cycle_expand {a b : RoleIdentity} (pa pb : List Privilege)
    (hab : a ≠ b) :
    expand [(a, ⟨[b], pa⟩), (b, ⟨[a], pb⟩)] [b] [a] pa [] =
      ([b, a], pa ++ pb, []) := by
  have hlb : lookupRole [(a, ⟨[b], pa⟩), (b, ⟨[a], pb⟩)] b =
      some ⟨[a], pb⟩ := by
    rw [lookupRole, if_neg hab, lookupRole, if_pos rfl]
  have hvb : b ∉ [a] := by
    simp only [List.mem_singleton]
    exact fun h => hab h.symm
  rw [expand_cons_hit _ _ _ _ hvb hlb]
  rw [show ([] : List RoleIdentity) ++ [a] = [a] from rfl]
  have hva : a ∈ [b, a] := by simp
  rw [expand_cons_visited _ _ _ _ hva, expand_nil]

/-! ## Claims: cycle termination, top-level errors, no-reference principals -/


/-- Claim C1: role-membership cycles terminate because a visited role is never
re-expanded; for the two-role cycle the resulting privilege set is the union
of the two roles' direct privileges and the warnings list is empty, so it has
no duplicate warning about an already-visited role. -/
theorem expansion_cycle_terminates_union (a b : RoleIdentity)
    (pa pb : List Privilege) (hab : a ≠ b) :
    (∀ (store : RoleStore) (frontier visited : List RoleIdentity)
        (privs : List Privilege) (warned : List RoleIdentity)
        (r : RoleIdentity), r ∈ visited →
        expand store (r :: frontier) visited privs warned =
          expand store frontier visited privs warned) ∧
    getRoleDescription [(a, ⟨[b], pa⟩), (b, ⟨[a], pb⟩)] a =
      .ok ⟨false, [b], dedupPrivileges (pa ++ pb), []⟩ ∧
    (∀ res act, grantsAction (dedupPrivileges (pa ++ pb)) res act ↔
      grantsAction pa res act ∨ grantsAction pb res act) := by
  refine ⟨fun store frontier visited privs warned r hv =>
    expand_cons_visited store frontier privs warned hv, ?_, ?_⟩
  · have hla : lookupRole [(a, ⟨[b], pa⟩), (b, ⟨[a], pb⟩)] a =
        some ⟨[b], pa⟩ := by
      rw [lookupRole, if_pos rfl]
    rw [getRoleDescription, hla]
    dsimp only
    rw [two_cycle_expand pa pb hab]
    dsimp only
    have hfb : [b, a].filter (fun x => decide (x ≠ a)) = [b] := by
      have hba : b ≠ a := fun h => hab h.symm
      simp [List.filter_cons, hba]
    rw [hfb]
    simp
  · intro res act
    rw [grantsAction_dedupPrivileges, grantsAction_append]

theorem expansion_cycle_terminates_union_witness :
    ((⟨"A", "db"⟩ : RoleIdentity) ≠ ⟨"B", "db"⟩) ∧
    (getRoleDescription
      [(⟨"A", "db"⟩, ⟨[⟨"B", "db"⟩], [⟨"app", ["read"]⟩]⟩),
       (⟨"B", "db"⟩, ⟨[⟨"A", "db"⟩], [⟨"app", ["write"]⟩]⟩)]
      ⟨"A", "db"⟩ =
      .ok ⟨false, [⟨"B", "db"⟩],
        dedupPrivileges ([⟨"app", ["read"]⟩] ++ [⟨"app", ["write"]⟩]), []⟩) ∧
    (∀ res act,
      grantsAction (dedupPrivileges ([⟨"app", ["read"]⟩] ++ [⟨"app", ["write"]⟩]))
        res act ↔
      grantsAction [⟨"app", ["read"]⟩] res act ∨
        grantsAction [⟨"app", ["write"]⟩] res act) :=
  ⟨by decide,
    (expansion_cycle_terminates_union ⟨"A", "db"⟩ ⟨"B", "db"⟩
      [⟨"app", ["read"]⟩] [⟨"app", ["write"]⟩] (by decide)).2.1,
    (expansion_cycle_terminates_union ⟨"A", "db"⟩ ⟨"B", "db"⟩
      [⟨"app", ["read"]⟩] [⟨"app", ["write"]⟩] (by decide)).2.2⟩

/-- Claim C4: a top-level role name with no role document is fatal for the call —
`getRoleDescription` fails with `RoleNotFound` exactly when the lookup of the
named role fails — while any graph whose top-level role exists resolves to a
successful description, so a role missing only mid-expansion never produces
this error. -/
theorem getRoleDescription_RoleNotFound (rstore : RoleStore)
    (r : RoleIdentity) :
    (lookupRole rstore r = none ↔
      getRoleDescription rstore r = .error .RoleNotFound) ∧
    (∀ rdoc, lookupRole rstore r = some rdoc →
      ∃ d, getRoleDescription rstore r = .ok d) := by
  constructor
  · constructor
    · intro h
      rw [getRoleDescription, h]
    · intro h
      cases hl : lookupRole rstore r with
      | none => rfl
      | some rdoc =>
        rw [getRoleDescription, hl] at h
        cases h
  · intro rdoc h
    rw [getRoleDescription, h]
    exact ⟨_, rfl⟩

theorem getRoleDescription_RoleNotFound_witness :
    (lookupRole [] ⟨"missing", "db"⟩ = none ↔
      getRoleDescription [] ⟨"missing", "db"⟩ = .error .RoleNotFound) ∧
    (∀ rdoc, lookupRole [] ⟨"missing", "db"⟩ = some rdoc →
      ∃ d, getRoleDescription [] ⟨"missing", "db"⟩ = .ok d) :=
  getRoleDescription_RoleNotFound [] ⟨"missing", "db"⟩

/-- Claim C5: a principal whose own document references no roles resolves to a
description with an empty warnings list, a role set equal to the direct
grants (here: empty), and only its own direct privileges. -/
theorem getUserDescription_no_role_refs (ustore : UserStore)
    (rstore : RoleStore) (u : UserName) (udoc : PrivilegeDocument)
    (hu : lookupUser ustore u = some udoc) (hroles : udoc.roles = []) :
    getUserDescription ustore rstore u =
      .ok ⟨udoc.hasCredentials, udoc.roles,
        dedupPrivileges udoc.privileges, []⟩ := by
  rw [getUserDescription, hu]
  dsimp only
  rw [hroles, expand_nil]
  rfl

theorem getUserDescription_no_role_refs_witness :
    lookupUser [(⟨"u", "db"⟩, ⟨true, [], [⟨"app", ["read"]⟩]⟩)] ⟨"u", "db"⟩ =
      some ⟨true, [], [⟨"app", ["read"]⟩]⟩ ∧
    getUserDescription [(⟨"u", "db"⟩, ⟨true, [], [⟨"app", ["read"]⟩]⟩)] []
      ⟨"u", "db"⟩ =
      .ok ⟨true, [], dedupPrivileges [⟨"app", ["read"]⟩], []⟩ :=
  ⟨by rw [lookupUser, if_pos rfl],
    getUserDescription_no_role_refs _ [] ⟨"u", "db"⟩ _
      (by rw [lookupUser, if_pos rfl]) rfl⟩

/-! ## Claims: privilege union, dangling references -/


theorem expand_warned_dangling (store : RoleStore)
    (frontier visited : List RoleIdentity) (privs : List Privilege)
    (warned : List RoleIdentity) :
    ∀ x ∈ (expand store frontier visited privs warned).2.2,
      x ∈ warned ∨ lookupRole store x = none := by
  induction frontier, visited, privs, warned using expand.induct store with
  | case1 visited privs warned =>
    rw [expand_nil]
    exact fun x hx => Or.inl hx
  | case2 r frontier visited privs warned hv ih =>
    rw [expand_cons_visited store frontier privs warned hv]
    exact ih
  | case3 r frontier visited privs warned hv doc hl ih =>
    rw [expand_cons_hit store frontier privs warned hv hl]
    exact ih
  | case4 r frontier visited privs warned hv hl ih =>
    rw [expand_cons_miss store frontier privs warned hv hl]
    intro x hx
    rcases ih x hx with hw | hnone
    · rcases List.mem_append.mp hw with h1 | h2
      · exact Or.inl h1
      · simp only [List.mem_singleton] at h2
        subst h2
        exact Or.inr hl
    · exact Or.inr hnone

/-- Claim C2: whenever the resolved description of a user lists a role, every
action that role directly grants on a resource is granted by the description's
privilege set (the union over all paths); in particular, for alice granted
admin which includes readWrite, the description carries roles
{admin, readWrite}, a single privilege on db "app" whose actions are the
union of both roles' action sets, and no warnings. -/
theorem getUserDescription_union_privileges :
    (∀ (ustore : UserStore) (rstore : RoleStore) (u : UserName)
        (d : Description) (r : RoleIdentity) (rdoc : RoleDocument)
        (p : Privilege) (act : String),
        getUserDescription ustore rstore u = .ok d →
        r ∈ d.roles → lookupRole rstore r = some rdoc →
        p ∈ rdoc.privileges → act ∈ p.actions →
        grantsAction d.privileges p.resource act) ∧
    getUserDescription
      [(⟨"alice", "app"⟩, ⟨true, [⟨"admin", "app"⟩], []⟩)]
      [(⟨"admin", "app"⟩,
          ⟨[⟨"readWrite", "app"⟩], [⟨"app", ["dropCollection"]⟩]⟩),
       (⟨"readWrite", "app"⟩, ⟨[], [⟨"app", ["read", "write"]⟩]⟩)]
      ⟨"alice", "app"⟩ =
      .ok ⟨true, [⟨"readWrite", "app"⟩, ⟨"admin", "app"⟩],
        [⟨"app", ["dropCollection", "read", "write"]⟩], []⟩ := by
  constructor
  · intro ustore rstore u d r rdoc p act h hr hl hp hact
    rw [getUserDescription] at h
    cases hu : lookupUser ustore u with
    | none =>
      rw [hu] at h
      cases h
    | some udoc =>
      rw [hu] at h
      dsimp only at h
      injection h with h2
      subst h2
      rcases expand_visited_complete rstore udoc.roles [] udoc.privileges []
          r hr with hfalse | hprop
      · cases hfalse
      · have hq := hprop rdoc hl p hp
        show grantsAction
          (dedupPrivileges (expand rstore udoc.roles [] udoc.privileges []).2.1)
          p.resource act
        rw [grantsAction_dedupPrivileges]
        exact ⟨p, hq, rfl, hact⟩
  · simp [getUserDescription, lookupUser, expand, lookupRole, dedupPrivileges,
      insertPrivilege, unionActions]



theorem getUserDescription_union_privileges_witness :
    grantsAction [⟨"app", ["dropCollection", "read", "write"]⟩] "app" "read" :=
  getUserDescription_union_privileges.1 _ _ _ _ ⟨"readWrite", "app"⟩
    ⟨[], [⟨"app", ["read", "write"]⟩]⟩ ⟨"app", ["read", "write"]⟩ "read"
    getUserDescription_union_privileges.2 (by decide) (by decide)
    (by decide) (by decide)

/-- Claim C3: a reachable reference to a nonexistent role never surfaces as an
error (any user whose own document exists resolves successfully); the warned
roles of a resolution are pairwise distinct dangling references, so no role is
warned about twice; and in the concrete dangling example the description
carries exactly one warning, naming the missing role, with its privileges
omitted. -/
theorem dangling_role_reference_warning :
    (∀ (ustore : UserStore) (rstore : RoleStore) (u : UserName)
        (udoc : PrivilegeDocument), lookupUser ustore u = some udoc →
        ∃ d, getUserDescription ustore rstore u = .ok d) ∧
    (∀ (ustore : UserStore) (rstore : RoleStore) (u : UserName)
        (d : Description), getUserDescription ustore rstore u = .ok d →
        ∃ ws : List RoleIdentity, d.warnings = ws.map roleWarning ∧
          ws.Nodup ∧ ∀ x ∈ ws, lookupRole rstore x = none) ∧
    getUserDescription
      [(⟨"alice", "db"⟩, ⟨true, [⟨"good", "db"⟩], []⟩)]
      [(⟨"good", "db"⟩, ⟨[⟨"gone", "db"⟩], [⟨"app", ["read"]⟩]⟩)]
      ⟨"alice", "db"⟩ =
      .ok ⟨true, [⟨"gone", "db"⟩, ⟨"good", "db"⟩], [⟨"app", ["read"]⟩],
        [roleWarning ⟨"gone", "db"⟩]⟩ := by
  refine ⟨?_, ?_, ?_⟩
  · intro ustore rstore u udoc hu
    rw [getUserDescription, hu]
    exact ⟨_, rfl⟩
  · intro ustore rstore u d h
    rw [getUserDescription] at h
    cases hu : lookupUser ustore u with
    | none =>
      rw [hu] at h
      cases h
    | some udoc =>
      rw [hu] at h
      dsimp only at h
      injection h with h2
      subst h2
      refine ⟨(expand rstore udoc.roles [] udoc.privileges []).2.2, rfl, ?_, ?_⟩
      · exact (expand_warned_inv rstore udoc.roles [] udoc.privileges []
          List.nodup_nil List.nodup_nil (by simp)).2.1
      · intro x hx
        rcases expand_warned_dangling rstore udoc.roles [] udoc.privileges []
            x hx with hfalse | hnone
        · cases hfalse
        · exact hnone
  · simp [getUserDescription, lookupUser, expand, lookupRole, dedupPrivileges,
      insertPrivilege, unionActions]

theorem dangling_role_reference_warning_witness :
    (∃ d, getUserDescription [(⟨"alice", "db"⟩, ⟨true, [⟨"good", "db"⟩], []⟩)]
      [(⟨"good", "db"⟩, ⟨[⟨"gone", "db"⟩], [⟨"app", ["read"]⟩]⟩)]
      ⟨"alice", "db"⟩ = .ok d) ∧
    (∃ ws : List RoleIdentity,
      ([roleWarning ⟨"gone", "db"⟩] : List String) = ws.map roleWarning ∧
      ws.Nodup ∧
      ∀ x ∈ ws, lookupRole
        [(⟨"good", "db"⟩, ⟨[⟨"gone", "db"⟩], [⟨"app", ["read"]⟩]⟩)] x = none) :=
  ⟨dangling_role_reference_warning.1 _ _ _ _ (by rw [lookupUser, if_pos rfl]),
    dangling_role_reference_warning.2.1 _ _ _ _
      dangling_role_reference_warning.2.2⟩

/-! ## Claims: lock exclusion and findOne -/


/-- One transition of the lock: some caller tries to acquire (with a reason
string), or the lock is released. -/
inductive LockStep : LockState → LockState → Prop where
  | tryAcq (c why : String) (s : LockState) :
      LockStep s (tryAcquireAuthzUpdateLock c why s).2
  | rel (s : LockState) : LockStep s (releaseAuthzUpdateLock s)

/-- States reachable from the initially free lock. -/
inductive LockReachable : LockState → Prop where
  | init : LockReachable ⟨none⟩
  | step {s t : LockState} : LockReachable s → LockStep s t → LockReachable t

/-- Claim C6: in every reachable lock state at most one caller holds the
authorization update lock; after a successful non-blocking acquisition every
further try (any caller) returns false without changing the state, until a
release makes acquisition succeed again; and the read path never consults the
lock component of the system state. -/
theorem authz_update_lock_exclusion :
    (∀ s : LockState, LockReachable s → holderCount s ≤ 1) ∧
    (∀ (c1 why1 : String) (s s' : LockState),
      tryAcquireAuthzUpdateLock c1 why1 s = (true, s') →
      ∀ c2 why2 : String,
        tryAcquireAuthzUpdateLock c2 why2 s' = (false, s') ∧
        (tryAcquireAuthzUpdateLock c2 why2 (releaseAuthzUpdateLock s')).1 =
          true) ∧
    (∀ (dat : AuthzState) (l1 l2 : LockState) (u : UserName),
      sysGetUserDescription ⟨dat, l1⟩ u = sysGetUserDescription ⟨dat, l2⟩ u) := by
  refine ⟨?_, ?_, ?_⟩
  · intro s _
    obtain ⟨holder⟩ := s
    cases holder <;> simp [holderCount]
  · intro c1 why1 s s' h c2 why2
    obtain ⟨holder⟩ := s
    cases holder with
    | none =>
      rw [tryAcquireAuthzUpdateLock] at h
      injection h with h1 h2
      subst h2
      exact ⟨rfl, rfl⟩
    | some p =>
      rw [tryAcquireAuthzUpdateLock] at h
      injection h with h1 h2
      cases h1
  · intro dat l1 l2 u
    rfl

theorem authz_update_lock_exclusion_witness :
    (LockReachable ⟨none⟩ → holderCount ⟨none⟩ ≤ 1) ∧
    (tryAcquireAuthzUpdateLock "admin1" "createUser" ⟨none⟩ =
        (true, ⟨some ("admin1", "createUser")⟩) →
      tryAcquireAuthzUpdateLock "admin2" "dropRole"
          ⟨some ("admin1", "createUser")⟩ =
        (false, ⟨some ("admin1", "createUser")⟩) ∧
      (tryAcquireAuthzUpdateLock "admin2" "dropRole"
        (releaseAuthzUpdateLock ⟨some ("admin1", "createUser")⟩)).1 = true) :=
  ⟨authz_update_lock_exclusion.1 ⟨none⟩,
    fun h => authz_update_lock_exclusion.2.1 "admin1" "createUser" ⟨none⟩
      ⟨some ("admin1", "createUser")⟩ h "admin2" "dropRole"⟩

/-- Claim C7 counterexample: with one document in the collection and a query no
document matches, `findOne` fails with `NoMatchingDocument`, which is a
different error outcome than `NotFound`; so the claim that the no-match
outcome is `NotFound` is false at this input. -/
theorem findOne_no_match_not_NotFound :
    findOne ⟨[("admin.system.users", [[("user", "alice")]])]⟩
      "admin.system.users" [("user", "bob")] =
      .error .NoMatchingDocument ∧
    ErrorCode.NoMatchingDocument ≠ ErrorCode.NotFound :=
  ⟨rfl, by decide⟩

/-- Claim C7 (amended): for every collection and query, `findOne` either returns a
matching document or, when no document matches, fails with the
`NoMatchingDocument` error outcome. -/
theorem findOne_contract (st : StorageState) (ns : String) (q : Document) :
    (∃ d, findOne st ns q = .ok d ∧ d ∈ getCollection st ns ∧
      matchesQuery q d = true) ∨
    (findOne st ns q = .error .NoMatchingDocument ∧
      ∀ d ∈ getCollection st ns, matchesQuery q d = false) := by
  rw [findOne]
  cases hf : (getCollection st ns).find? (matchesQuery q) with
  | some d =>
    left
    exact ⟨d, rfl, List.mem_of_find?_eq_some hf, List.find?_some hf⟩
  | none =>
    right
    refine ⟨rfl, ?_⟩
    intro d hd
    have hnd := List.find?_eq_none.mp hf d hd
    simpa using hnd

/-! ## Claims: updateOne, idempotence, user-lookup error translation -/


theorem updateFirstMatch_eq_none {q : Document} (up : Document)
    {coll : Collection} (h : ∀ d ∈ coll, matchesQuery q d = false) :
    updateFirstMatch q up coll = none := by
  induction coll with
  | nil => rfl
  | cons d rest ih =>
    rw [updateFirstMatch]
    simp [h d (List.mem_cons_self _ _),
      ih (fun x hx => h x (List.mem_cons_of_mem _ hx))]

theorem lookupCollection_setCollection
    (cols : List (String × Collection)) (ns : String) (c : Collection) :
    lookupCollection (setCollection cols ns c) ns = some c := by
  induction cols with
  | nil => rw [setCollection, lookupCollection, if_pos rfl]
  | cons kv rest ih =>
    obtain ⟨n, cc⟩ := kv
    rw [setCollection]
    by_cases h : n = ns
    · rw [if_pos h, lookupCollection, if_pos rfl]
    · rw [if_neg h, lookupCollection, if_neg h]
      exact ih

/-- Claim C8: when no document matches the query, `updateOne` with upsert disabled
fails with `NoMatchingDocument` (no new storage state is produced, so the
collection is unchanged), and with upsert enabled it succeeds, appending to
the collection exactly one document built from the query as a template. -/
theorem updateOne_contract (st : StorageState) (ns : String)
    (q up : Document)
    (hnm : ∀ d ∈ getCollection st ns, matchesQuery q d = false) :
    updateOne st ns q up false = .error .NoMatchingDocument ∧
    (∃ st', updateOne st ns q up true = .ok st' ∧
      getCollection st' ns = getCollection st ns ++ [applyUpdate up q]) := by
  have hn := updateFirstMatch_eq_none up hnm
  constructor
  · rw [updateOne, hn]
    rfl
  · refine ⟨⟨setCollection st.collections ns
      (getCollection st ns ++ [applyUpdate up q])⟩,
      by rw [updateOne, hn]; rfl, ?_⟩
    rw [getCollection]
    rw [lookupCollection_setCollection]
    rfl

theorem updateOne_contract_witness :
    (∀ d ∈ getCollection ⟨[("db.system.users", [[("user", "alice")]])]⟩
      "db.system.users", matchesQuery [("user", "bob")] d = false) ∧
    updateOne ⟨[("db.system.users", [[("user", "alice")]])]⟩
      "db.system.users" [("user", "bob")] [("pwd", "x")] false =
      .error .NoMatchingDocument ∧
    (∃ st', updateOne ⟨[("db.system.users", [[("user", "alice")]])]⟩
        "db.system.users" [("user", "bob")] [("pwd", "x")] true = .ok st' ∧
      getCollection st' "db.system.users" =
        getCollection ⟨[("db.system.users", [[("user", "alice")]])]⟩
          "db.system.users" ++
          [applyUpdate [("pwd", "x")] [("user", "bob")]]) :=
  ⟨by decide,
    (updateOne_contract _ _ _ _ (by decide)).1,
    (updateOne_contract _ _ _ _ (by decide)).2⟩

theorem applyOps_readonly (s : AuthzState) (ops : List AuthzOp)
    (h : ∀ op ∈ ops, isMutation op = false) : applyOps s ops = s := by
  induction ops generalizing s with
  | nil => rfl
  | cons op rest ih =>
    have hop := h op (List.mem_cons_self _ _)
    have htail : ∀ o ∈ rest, isMutation o = false :=
      fun o ho => h o (List.mem_cons_of_mem _ ho)
    cases op with
    | insertUserDoc u d => simp [isMutation] at hop
    | removeUserDocs u => simp [isMutation] at hop
    | insertRoleDoc r d => simp [isMutation] at hop
    | removeRoleDocs r => simp [isMutation] at hop
    | readUserDescription u => exact ih s htail
    | readRoleDescription r => exact ih s htail

/-- Claim C9: running any sequence of non-mutating operations between two calls of
`getUserDescription` leaves the authorization state unchanged, so the two
calls return structurally identical descriptions. -/
theorem getUserDescription_idempotent (s : AuthzState) (ops : List AuthzOp)
    (h : ∀ op ∈ ops, isMutation op = false) (u : UserName) :
    applyOps s ops = s ∧
    getUserDescription (applyOps s ops).users (applyOps s ops).roles u =
      getUserDescription s.users s.roles u := by
  have hs := applyOps_readonly s ops h
  exact ⟨hs, by rw [hs]⟩

theorem getUserDescription_idempotent_witness :
    applyOps ⟨[], []⟩ [.readUserDescription ⟨"alice", "db"⟩] = ⟨[], []⟩ ∧
    getUserDescription
      (applyOps (⟨[], []⟩ : AuthzState)
        [.readUserDescription ⟨"alice", "db"⟩]).users
      (applyOps (⟨[], []⟩ : AuthzState)
        [.readUserDescription ⟨"alice", "db"⟩]).roles ⟨"alice", "db"⟩ =
      getUserDescription ([] : UserStore) ([] : RoleStore) ⟨"alice", "db"⟩ :=
  getUserDescription_idempotent ⟨[], []⟩ [.readUserDescription ⟨"alice", "db"⟩]
    (by intro op hop; simp at hop; subst hop; rfl) ⟨"alice", "db"⟩

/-- Claim C10: on a users-namespace query with no match, the internal user lookup
returns `UserNotFound` (and `getPrivilegeDocument`, built on it, does too for
both schema versions), whereas the general-purpose `findOne` reports the same
no-match condition as `NoMatchingDocument`. -/
theorem findUser_translates_no_match (st : StorageState) (ns : String)
    (q : Document) (u : UserName) (v : Nat)
    (hq : ∀ d ∈ getCollection st ns, matchesQuery q d = false)
    (h1 : ∀ d ∈ getCollection st (u.db ++ ".system.users"),
      matchesQuery [("user", u.user)] d = false)
    (h2 : ∀ d ∈ getCollection st "admin.system.users",
      matchesQuery [("user", u.user), ("db", u.db)] d = false) :
    findUser st ns q = .error .UserNotFound ∧
    findOne st ns q = .error .NoMatchingDocument ∧
    getPrivilegeDocument st u v = .error .UserNotFound := by
  have hfind : ∀ (ns' : String) (q' : Document),
      (∀ d ∈ getCollection st ns', matchesQuery q' d = false) →
      (getCollection st ns').find? (matchesQuery q') = none := by
    intro ns' q' hh
    apply List.find?_eq_none.mpr
    intro d hd
    simp [hh d hd]
  refine ⟨?_, ?_, ?_⟩
  · rw [findUser, hfind ns q hq]
  · rw [findOne, hfind ns q hq]
  · rw [getPrivilegeDocument]
    by_cases hv : v = 1
    · rw [if_pos hv, findUser, hfind _ _ h1]
    · rw [if_neg hv, findUser, hfind _ _ h2]

theorem findUser_translates_no_match_witness :
    findUser ⟨[]⟩ "db.system.users" [("user", "bob")] =
      .error .UserNotFound ∧
    findOne ⟨[]⟩ "db.system.users" [("user", "bob")] =
      .error .NoMatchingDocument ∧
    getPrivilegeDocument ⟨[]⟩ ⟨"bob", "db"⟩ 1 = .error .UserNotFound :=
  findUser_translates_no_match ⟨[]⟩ "db.system.users" [("user", "bob")]
    ⟨"bob", "db"⟩ 1 (by decide) (by decide) (by decide)

end AuthzExternalState
